import Mathlib

/-!
Shallow embedding of the in-memory call tracer of `agent/tracer.py` and its
instrumentation wrapper / API surface in `agent/rag_pipeline.py`.

Python values appearing in trace records are modelled by `PyVal`; dicts are
ordered association lists (Python dicts preserve insertion order).  Machine
clocks are nondeterministic, so the wall-clock readings that the Python code
obtains from `datetime.utcnow()` / `time.time()` are passed in as explicit
parameters.  Exceptions are modelled by an arbitrary type `E` together with
the stringification `str : E → String`; re-raising the identical exception is
returning the very same value of `E`.
-/

namespace Tracer

/-- A Python value as it appears in trace records. -/
inductive PyVal where
  | none : PyVal
  | bool : Bool → PyVal
  | int : Int → PyVal
  | str : String → PyVal
  deriving DecidableEq, Repr

/-- Python `str()` on the modelled values. -/
def PyVal.toStr : PyVal → String
  | .none => "None"
  | .bool true => "True"
  | .bool false => "False"
  | .int n => toString n
  | .str s => s

/-- Python truthiness on the modelled values. -/
def PyVal.truthy : PyVal → Bool
  | .none => false
  | .bool b => b
  | .int n => n != 0
  | .str s => s != ""

/-- A Python dict with string keys, in insertion order. -/
abbrev Dict := List (String × PyVal)

/-- One trace record, the dict built in `InMemoryTracer.add_trace`. -/
structure Trace where
  timestamp : String
  operation : String
  input : Dict
  output : Dict
  duration_ms : ℚ
  status : String
  error : Option String
  deriving DecidableEq, Repr

/-- The field names of a trace record, in the order `add_trace` builds them. -/
def traceFields : List String :=
  ["timestamp", "operation", "input", "output", "duration_ms", "status", "error"]

/-- A trace record as the Python dict `add_trace` stores (and `export_json`
serializes).  `input`/`output` are kept structured; for the field-set claims
only the keys matter. -/
def traceToDict (t : Trace) : List (String × String) :=
  [("timestamp", t.timestamp),
   ("operation", t.operation),
   ("input", toString (repr t.input)),
   ("output", toString (repr t.output)),
   ("duration_ms", toString t.duration_ms),
   ("status", t.status),
   ("error", (t.error).getD "None")]

/-- Python's slice `l[-n:]` for a non-negative `n`: the last `n` elements,
except that `l[-0:]` is the **whole** list (`-0 == 0`). -/
def pySliceLast (n : Nat) (l : List α) : List α :=
  if n = 0 then l else l.drop (l.length - n)

/-- The genuinely-last `n` elements of a list (`lastN 0 l = []`). -/
def lastN (n : Nat) (l : List α) : List α :=
  l.drop (l.length - n)

/-- State of `InMemoryTracer`: the record list and the configured bound.
The `threading.Lock` is modelled separately (see `Event` below); all the
operations here are the bodies of the locked regions. -/
structure InMemoryTracer where
  traces : List Trace
  max_traces : Nat
  deriving DecidableEq, Repr

namespace InMemoryTracer

/-- `InMemoryTracer.__init__` (default capacity 10000). -/
def init (max_traces : Nat := 10000) : InMemoryTracer :=
  { traces := [], max_traces := max_traces }

/-- `InMemoryTracer.add_trace`.  `now` stands for
`datetime.utcnow().isoformat()`. -/
def add_trace (t : InMemoryTracer) (now : String) (operation : String)
    (input_data output_data : Dict) (duration_ms : ℚ)
    (status : String := "success") (error : Option String := .none) :
    InMemoryTracer :=
  let trace : Trace :=
    { timestamp := now, operation := operation, input := input_data,
      output := output_data, duration_ms := duration_ms, status := status,
      error := error }
  let traces := t.traces ++ [trace]
  { t with
    traces := if traces.length > t.max_traces
              then pySliceLast t.max_traces traces
              else traces }

/-- `InMemoryTracer.get_traces`.  The Python parameter `operation` defaults to
`None`; the guard `if operation:` is Python truthiness, so `None` *and* the
empty string skip the filter. -/
def get_traces (t : InMemoryTracer) (operation : Option String := .none)
    (limit : Nat := 100) : List Trace :=
  let result := t.traces
  let result :=
    if (match operation with | .none => false | some s => s != "") then
      result.filter (fun tr => tr.operation = operation.getD "")
    else result
  pySliceLast limit result

/-- The running aggregate held in the `defaultdict` of `get_stats` before the
average is filled in: `{"count": 0, "total_duration": 0, "errors": 0}`. -/
structure RawStats where
  count : Nat
  total_duration : ℚ
  errors : Nat
  deriving DecidableEq, Repr

/-- The default value the `defaultdict` creates. -/
def RawStats.zero : RawStats := { count := 0, total_duration := 0, errors := 0 }

/-- One loop iteration of `get_stats`: `count += 1`,
`total_duration += duration_ms`, `errors += 1` when the status is `error`. -/
def bumpStats (s : RawStats) (tr : Trace) : RawStats :=
  { count := s.count + 1,
    total_duration := s.total_duration + tr.duration_ms,
    errors := s.errors + (if tr.status = "error" then 1 else 0) }

/-- `stats[op] …` on the `defaultdict`: update the entry in place if the key
exists, otherwise append a fresh defaulted entry (insertion order). -/
def statsUpdate (acc : List (String × RawStats)) (tr : Trace) :
    List (String × RawStats) :=
  if acc.any (fun p => p.1 = tr.operation) then
    acc.map (fun p => if p.1 = tr.operation then (p.1, bumpStats p.2 tr) else p)
  else
    acc ++ [(tr.operation, bumpStats RawStats.zero tr)]

/-- First-match lookup in an association list (Python dict access). -/
def findStats? (acc : List (String × RawStats)) (op : String) : Option RawStats :=
  match acc with
  | [] => .none
  | p :: ps => if p.1 = op then some p.2 else findStats? ps op

/-- The final per-operation entry of `get_stats`, after the second loop added
`avg_duration = total_duration / count`. -/
structure OpStats where
  count : Nat
  total_duration : ℚ
  errors : Nat
  avg_duration : ℚ
  deriving DecidableEq, Repr

/-- The second loop of `get_stats` on one entry: add
`avg_duration = total_duration / count` (guarded by `count > 0`; a missing
average is modelled as `0`, the state before the second loop). -/
def finishStats (r : RawStats) : OpStats :=
  { count := r.count, total_duration := r.total_duration, errors := r.errors,
    avg_duration := if r.count > 0 then r.total_duration / r.count else 0 }

/-- `InMemoryTracer.get_stats`: empty dict on an empty store, otherwise the
`defaultdict` fold followed by the average pass. -/
def get_stats (t : InMemoryTracer) : List (String × OpStats) :=
  if t.traces = [] then []
  else (t.traces.foldl statsUpdate []).map (fun p => (p.1, finishStats p.2))

/-- First-match lookup among the finished stats entries. -/
def findOpStats? (acc : List (String × OpStats)) (op : String) : Option OpStats :=
  match acc with
  | [] => .none
  | p :: ps => if p.1 = op then some p.2 else findOpStats? ps op

/-- `InMemoryTracer.export_json`: `json.dump(self.traces, f)` — the document
written to the file is the full record list, in store order.  The value is the
parsed content of the written file. -/
def export_json (t : InMemoryTracer) : List (List (String × String)) :=
  t.traces.map traceToDict

/-- `InMemoryTracer.clear`. -/
def clear (t : InMemoryTracer) : InMemoryTracer :=
  { t with traces := [] }

end InMemoryTracer

/-! ## Instrumentation wrapper (`trace_operation` in `rag_pipeline.py`)

One invocation of the wrapped callable is modelled by its outcome
`call : Except E A`: `.ok v` is a normal return with value `v`, `.error e` is a
raised exception `e`.  `eStr e` is Python's `str(e)`; `truthy`/`resStr` are
Python truthiness and `str()` on the result type.  `t0`/`t1` are the two
`time.time()` readings and `now` the timestamp `add_trace` assigns. -/

/-- The body of `wrapper` inside `trace_operation(operation_name)`: returns the
pair (what the wrapper returns or re-raises, the tracer state after the one
`add_trace` call). -/
def trace_operation {E A : Type} (tracer : Tracer.InMemoryTracer)
    (operation_name : String) (now : String) (argsStr kwargsStr : String)
    (t0 t1 : ℚ) (call : Except E A) (eStr : E → String)
    (truthy : A → Bool) (resStr : A → String) :
    Except E A × Tracer.InMemoryTracer :=
  let input_data : Dict :=
    [("args", PyVal.str (argsStr.take 200)),
     ("kwargs", PyVal.str (kwargsStr.take 200))]
  match call with
  | .ok result =>
      let duration_ms : ℚ := (t1 - t0) * 1000
      let output_data : Dict :=
        [("result",
          if truthy result then PyVal.str ((resStr result).take 500)
          else PyVal.none)]
      (.ok result,
       tracer.add_trace now operation_name input_data output_data duration_ms
         "success" .none)
  | .error e =>
      let duration_ms : ℚ := (t1 - t0) * 1000
      (.error e,
       tracer.add_trace now operation_name input_data [] duration_ms
         "error" (some (eStr e)))

/-! ## API surface (`rag_pipeline.py`) -/

/-- `get_traces_api`. -/
def get_traces_api (tracer : InMemoryTracer) (operation : Option String := .none)
    (limit : Nat := 100) : List Trace :=
  tracer.get_traces operation limit

/-- `get_stats_api`. -/
def get_stats_api (tracer : InMemoryTracer) : List (String × InMemoryTracer.OpStats) :=
  tracer.get_stats

/-- `export_traces_api`: exports and returns the confirmation dict
`{"status": "Traces exported to " + filepath}`.  The first component is the
file content written by `export_json`, the second the returned dict. -/
def export_traces_api (tracer : InMemoryTracer)
    (filepath : String := "traces.json") :
    List (List (String × String)) × Dict :=
  (tracer.export_json,
   [("status", PyVal.str ("Traces exported to " ++ filepath))])

/-! ## Lock discipline (`threading.Lock` usage)

Each tracer method is abstracted to the sequence of events its body performs,
in source order: lock acquisition/release (the `with self.lock:` block
boundaries), in-memory work, and file I/O (`open`, `json.dump`, and the file
close when the inner `with` exits). -/

/-- An abstract event of a tracer method body. -/
inductive Event where
  | acquire : Event
  | release : Event
  | memAppend : Event
  | memRead : Event
  | fileOpen : Event
  | fileWrite : Event
  | fileClose : Event
  deriving DecidableEq, Repr

/-- Is the event an external-I/O call? -/
def Event.isIO : Event → Bool
  | .fileOpen => true
  | .fileWrite => true
  | .fileClose => true
  | _ => false

/-- Does any external-I/O event occur while the lock is held (depth `d > 0`)? -/
def ioUnderLock : Nat → List Event → Bool
  | _, [] => false
  | d, .acquire :: es => ioUnderLock (d + 1) es
  | d, .release :: es => ioUnderLock (d - 1) es
  | d, e :: es => (e.isIO && decide (0 < d)) || ioUnderLock d es

/-- Event trace of `add_trace`: the append happens inside `with self.lock:`. -/
def addTraceEvents : List Event := [.acquire, .memAppend, .release]

/-- Event trace of `get_traces`: a read inside the lock. -/
def getTracesEvents : List Event := [.acquire, .memRead, .release]

/-- Event trace of `get_stats`: an aggregate read inside the lock. -/
def getStatsEvents : List Event := [.acquire, .memRead, .release]

/-- Event trace of `clear`: a write inside the lock. -/
def clearEvents : List Event := [.acquire, .memAppend, .release]

/-- Event trace of `export_json`: `with self.lock:` encloses
`with open(filepath, 'w') as f: json.dump(...)`, so the open, the write and
the close all happen while the lock is held. -/
def exportJsonEvents : List Event :=
  [.acquire, .fileOpen, .fileWrite, .fileClose, .release]

/-! ## Specification-side helpers (counting, means) -/

/-- The arguments of one `add_trace` call (the timestamp included, since the
clock is modelled as an input). -/
structure TraceIn where
  now : String
  operation : String
  input : Dict
  output : Dict
  duration_ms : ℚ
  status : String
  error : Option String
  deriving DecidableEq, Repr

/-- The record an `add_trace` call appends. -/
def TraceIn.toTrace (i : TraceIn) : Trace :=
  { timestamp := i.now, operation := i.operation, input := i.input,
    output := i.output, duration_ms := i.duration_ms, status := i.status,
    error := i.error }

/-- Run a sequence of `add_trace` calls against a tracer. -/
def addAll (t : InMemoryTracer) (ins : List TraceIn) : InMemoryTracer :=
  ins.foldl
    (fun acc i =>
      acc.add_trace i.now i.operation i.input i.output i.duration_ms i.status
        i.error)
    t

/-- Records of a given operation, in store order. -/
def opTraces (op : String) (l : List Trace) : List Trace :=
  l.filter (fun tr => tr.operation = op)

/-- Number of retained records of an operation. -/
def opCount (op : String) (l : List Trace) : Nat := (opTraces op l).length

/-- Sum of the durations of an operation's records. -/
def opTotal (op : String) (l : List Trace) : ℚ :=
  ((opTraces op l).map Trace.duration_ms).sum

/-- Number of an operation's records with status `error`. -/
def opErrors (op : String) (l : List Trace) : Nat :=
  ((opTraces op l).filter (fun tr => tr.status = "error")).length

/-! ## Basic list lemmas -/

theorem lastN_length {α : Type} (n : Nat) (l : List α) :
    (lastN n l).length = min n l.length := by
  simp only [lastN, List.length_drop]
  omega

theorem lastN_of_length_le {α : Type} {n : Nat} {l : List α}
    (h : l.length ≤ n) : lastN n l = l := by
  simp only [lastN]
  rw [Nat.sub_eq_zero_of_le h, List.drop_zero]

theorem lastN_suffix {α : Type} (n : Nat) (l : List α) : lastN n l <:+ l :=
  List.drop_suffix _ _

theorem pySliceLast_eq_lastN {α : Type} {n : Nat} (hn : 0 < n) (l : List α) :
    pySliceLast n l = lastN n l := by
  simp only [pySliceLast, lastN, if_neg (Nat.pos_iff_ne_zero.mp hn)]

theorem mem_pySliceLast {α : Type} {n : Nat} {l : List α} {x : α}
    (h : x ∈ pySliceLast n l) : x ∈ l := by
  rcases Nat.eq_zero_or_pos n with h0 | h0
  · simpa [pySliceLast, h0] using h
  · rw [pySliceLast_eq_lastN h0] at h
    exact (lastN_suffix n l).subset h

theorem lastN_snoc_lastN {α : Type} {n : Nat} (hn : 0 < n) (l : List α)
    (x : α) : lastN n (lastN n l ++ [x]) = lastN n (l ++ [x]) := by
  rcases Nat.lt_or_ge l.length n with hlt | hge
  · rw [lastN_of_length_le (Nat.le_of_lt hlt)]
  · simp only [lastN, List.length_append, List.length_singleton,
      List.length_drop]
    have h1 : l.length - (l.length - n) + 1 - n = 1 := by omega
    have h2 : l.length + 1 - n = (l.length - n) + 1 := by omega
    rw [h1, h2]
    rw [List.drop_append_of_le_length (by simp only [List.length_drop]; omega),
      List.drop_append_of_le_length (by omega)]
    congr 1
    rw [List.drop_drop]

/-! ## Eviction / capacity lemmas (`add_trace`) -/

theorem add_trace_traces (t : InMemoryTracer) (i : TraceIn) :
    (t.add_trace i.now i.operation i.input i.output i.duration_ms i.status
        i.error).traces =
      if (t.traces ++ [i.toTrace]).length > t.max_traces
      then pySliceLast t.max_traces (t.traces ++ [i.toTrace])
      else t.traces ++ [i.toTrace] := rfl

theorem add_trace_max (t : InMemoryTracer) (i : TraceIn) :
    (t.add_trace i.now i.operation i.input i.output i.duration_ms i.status
        i.error).max_traces = t.max_traces := rfl

theorem add_trace_lastN {t : InMemoryTracer} (hC : 0 < t.max_traces)
    {hist : List Trace} (ht : t.traces = lastN t.max_traces hist)
    (i : TraceIn) :
    (t.add_trace i.now i.operation i.input i.output i.duration_ms i.status
        i.error).traces = lastN t.max_traces (hist ++ [i.toTrace]) := by
  rw [add_trace_traces, ht]
  by_cases h : (lastN t.max_traces hist ++ [i.toTrace]).length > t.max_traces
  · rw [if_pos h, pySliceLast_eq_lastN hC, lastN_snoc_lastN hC]
  · rw [if_neg h]
    have hlen : (lastN t.max_traces hist).length = min t.max_traces hist.length :=
      lastN_length _ _
    simp only [List.length_append, List.length_singleton, Nat.not_lt] at h
    have hsmall : hist.length < t.max_traces := by omega
    rw [lastN_of_length_le (Nat.le_of_lt hsmall),
      lastN_of_length_le (by simp; omega)]

theorem addAll_lastN (ins : List TraceIn) :
    ∀ (t : InMemoryTracer) (hist : List Trace), 0 < t.max_traces →
      t.traces = lastN t.max_traces hist →
      (addAll t ins).traces =
        lastN t.max_traces (hist ++ ins.map TraceIn.toTrace) ∧
      (addAll t ins).max_traces = t.max_traces := by
  induction ins with
  | nil =>
      intro t hist hC ht
      simpa [addAll] using ht
  | cons i ins ih =>
      intro t hist hC ht
      have hstep := add_trace_lastN hC ht i
      have hrec := ih
        (t.add_trace i.now i.operation i.input i.output i.duration_ms
          i.status i.error)
        (hist ++ [i.toTrace]) (by rwa [add_trace_max]) hstep
      simpa [addAll, List.foldl_cons, List.append_assoc] using hrec

theorem get_traces_mem {t : InMemoryTracer} {f : Option String} {lim : Nat}
    {tr : Trace} (h : tr ∈ t.get_traces f lim) : tr ∈ t.traces := by
  simp only [InMemoryTracer.get_traces] at h
  have h' := mem_pySliceLast h
  split at h'
  · exact List.mem_of_mem_filter h'
  · exact h'

/-! ## Concrete sample data -/

/-- A sample `add_trace` argument tuple. -/
def sampleIn (now op : String) (d : ℚ) (st : String) : TraceIn :=
  { now := now, operation := op, input := [], output := [],
    duration_ms := d, status := st, error := .none }

/-- A tracer holding one record, at the default capacity. -/
def oneTracer : InMemoryTracer :=
  InMemoryTracer.mk [(sampleIn "t0" "opA" 1 "success").toTrace] 10000

/-! ## C1 -/

/-- C1 counterexample: with capacity `C = 0` and `k = 1` insertions the store
retains 1 record, not `C = 0` — Python's `traces[-0:]` slice is the whole
list, so a capacity of 0 never evicts. -/
theorem claim_C1_counterexample :
    (addAll (InMemoryTracer.init 0) [sampleIn "t0" "opA" 1 "success"]).traces.length = 1 ∧
    (addAll (InMemoryTracer.init 0) [sampleIn "t0" "opA" 1 "success"]).traces.length ≠
      (InMemoryTracer.init 0).max_traces := by
  have h1 : (addAll (InMemoryTracer.init 0)
      [sampleIn "t0" "opA" 1 "success"]).traces.length = 1 := rfl
  have h2 : (InMemoryTracer.init 0).max_traces = 0 := rfl
  exact ⟨h1, by omega⟩

/-- C1 (amended: capacity `C` positive): for every positive capacity `C` and
every sequence of `C + k` `add_trace` calls, the store retains exactly the
last `C` records, in order; queries return only retained records, and the
export and the statistics are computed from the retained records alone, so
the `k` oldest records are not retrievable through any of them. -/
theorem claim_C1_capacity_bound (C k : Nat) (hC : 0 < C) (ins : List TraceIn)
    (hlen : ins.length = C + k) :
    (addAll (InMemoryTracer.init C) ins).traces
        = lastN C (ins.map TraceIn.toTrace) ∧
    (addAll (InMemoryTracer.init C) ins).traces.length = C ∧
    (∀ f lim tr, tr ∈ (addAll (InMemoryTracer.init C) ins).get_traces f lim →
        tr ∈ lastN C (ins.map TraceIn.toTrace)) ∧
    (addAll (InMemoryTracer.init C) ins).export_json
        = (lastN C (ins.map TraceIn.toTrace)).map traceToDict ∧
    (addAll (InMemoryTracer.init C) ins).get_stats
        = (InMemoryTracer.mk (lastN C (ins.map TraceIn.toTrace)) C).get_stats := by
  have hinit : (InMemoryTracer.init C).traces
      = lastN (InMemoryTracer.init C).max_traces [] := by
    simp [lastN, InMemoryTracer.init]
  obtain ⟨h1, h2⟩ := addAll_lastN ins (InMemoryTracer.init C) [] hC hinit
  rw [List.nil_append] at h1
  have hCmax : (InMemoryTracer.init C).max_traces = C := rfl
  rw [hCmax] at h1 h2
  have hlength : (addAll (InMemoryTracer.init C) ins).traces.length = C := by
    rw [h1, lastN_length, List.length_map, hlen]
    omega
  have heq : addAll (InMemoryTracer.init C) ins
      = InMemoryTracer.mk (lastN C (ins.map TraceIn.toTrace)) C := by
    calc addAll (InMemoryTracer.init C) ins
        = InMemoryTracer.mk (addAll (InMemoryTracer.init C) ins).traces
            (addAll (InMemoryTracer.init C) ins).max_traces := rfl
      _ = InMemoryTracer.mk (lastN C (ins.map TraceIn.toTrace)) C := by
            rw [h1, h2]
  refine ⟨h1, hlength, ?_, ?_, ?_⟩
  · intro f lim tr htr
    have := get_traces_mem htr
    rwa [h1] at this
  · show (addAll (InMemoryTracer.init C) ins).traces.map traceToDict = _
    rw [h1]
  · rw [heq]

/-- C1 witness: capacity 2, three insertions — only the last two records
remain. -/
theorem claim_C1_witness :
    (addAll (InMemoryTracer.init 2)
        [sampleIn "t0" "opA" 1 "success", sampleIn "t1" "opB" 2 "success",
         sampleIn "t2" "opC" 3 "error"]).traces
      = lastN 2 ([sampleIn "t0" "opA" 1 "success", sampleIn "t1" "opB" 2 "success",
         sampleIn "t2" "opC" 3 "error"].map TraceIn.toTrace) ∧
    (addAll (InMemoryTracer.init 2)
        [sampleIn "t0" "opA" 1 "success", sampleIn "t1" "opB" 2 "success",
         sampleIn "t2" "opC" 3 "error"]).traces.length = 2 :=
  ⟨(claim_C1_capacity_bound 2 1 (by decide) _ (by decide)).1,
   (claim_C1_capacity_bound 2 1 (by decide) _ (by decide)).2.1⟩

/-! ## C2 -/

/-- C2 counterexample: with one stored record, `get_traces(limit=0)` returns
the whole store (Python's `result[-0:]`), not the last `min(0, 1) = 0`
records the claim demands. -/
theorem claim_C2_counterexample :
    (oneTracer.get_traces .none 0).length = 1 ∧
    (oneTracer.get_traces .none 0).length ≠ min 0 oneTracer.traces.length := by
  have h1 : (oneTracer.get_traces .none 0).length = 1 := rfl
  have h2 : min 0 oneTracer.traces.length = 0 := rfl
  exact ⟨h1, by omega⟩

/-- C2 (amended: `N` positive): for every store and every positive limit `N`,
`get_traces` with no operation filter returns exactly the last
`min(N, count)` records, in insertion order (a suffix of the store), without
mutating the store (it is a pure read of `traces`). -/
theorem claim_C2_query_window (t : InMemoryTracer) (N : Nat) (hN : 0 < N) :
    t.get_traces .none N = lastN N t.traces ∧
    (t.get_traces .none N).length = min N t.traces.length ∧
    t.get_traces .none N <:+ t.traces := by
  have hbase : t.get_traces .none N = pySliceLast N t.traces := rfl
  rw [hbase, pySliceLast_eq_lastN hN]
  exact ⟨rfl, lastN_length N t.traces, lastN_suffix N t.traces⟩

/-- C2 witness: one stored record, limit 5. -/
theorem claim_C2_witness :
    oneTracer.get_traces .none 5 = lastN 5 oneTracer.traces ∧
    (oneTracer.get_traces .none 5).length = min 5 oneTracer.traces.length ∧
    oneTracer.get_traces .none 5 <:+ oneTracer.traces :=
  claim_C2_query_window oneTracer 5 (by decide)

/-! ## C3 -/

/-- C3 counterexample: with the empty string as `operation` filter, Python's
truthiness guard `if operation:` skips filtering entirely, so a record whose
operation is `"opA"` (≠ `""`) is returned. -/
theorem claim_C3_counterexample :
    (oneTracer.get_traces (some "") 10).map Trace.operation = ["opA"] ∧
    "opA" ≠ "" := by
  exact ⟨rfl, by decide⟩

/-- C3 (amended: non-empty filter string): for every store, every *non-empty*
`operation` filter `f` and every limit, each returned record has operation
`f`; the result is exactly the slice of the matching records, and every
record of operation `f` inside the most-recent `limit` window of the store is
included in the result. -/
theorem claim_C3_operation_filter (t : InMemoryTracer) (f : String)
    (lim : Nat) (hf : f ≠ "") :
    (∀ tr ∈ t.get_traces (some f) lim, tr.operation = f) ∧
    t.get_traces (some f) lim
        = pySliceLast lim (t.traces.filter (fun tr => tr.operation = f)) ∧
    (∀ tr ∈ lastN lim t.traces, tr.operation = f →
        tr ∈ t.get_traces (some f) lim) := by
  have hcond : (f != "") = true := by simpa using hf
  have h2 : t.get_traces (some f) lim
      = pySliceLast lim (t.traces.filter (fun tr => tr.operation = f)) := by
    simp only [InMemoryTracer.get_traces, hcond, if_true, Option.getD_some]
  refine ⟨?_, h2, ?_⟩
  · intro tr htr
    rw [h2] at htr
    have := mem_pySliceLast htr
    simpa using (List.mem_filter.mp this).2
  · intro tr htr hop
    rw [h2]
    rcases Nat.eq_zero_or_pos lim with h0 | h0
    · rw [h0] at htr
      simp [lastN, List.drop_length] at htr
    · rw [pySliceLast_eq_lastN h0]
      have hmem : tr ∈ (lastN lim t.traces).filter
          (fun tr => tr.operation = f) :=
        List.mem_filter.mpr ⟨htr, by simpa using hop⟩
      have hfsuf : (lastN lim t.traces).filter (fun tr => tr.operation = f)
          <:+ t.traces.filter (fun tr => tr.operation = f) :=
        (lastN_suffix lim t.traces).filter _
      have hlen1 : ((lastN lim t.traces).filter
          (fun tr => tr.operation = f)).length ≤ lim := by
        have := List.length_filter_le (fun tr => decide (tr.operation = f))
          (lastN lim t.traces)
        have hW := lastN_length lim t.traces
        omega
      have hlen2 : ((lastN lim t.traces).filter
          (fun tr => tr.operation = f)).length
            ≤ (t.traces.filter (fun tr => tr.operation = f)).length :=
        hfsuf.length_le
      have htarget : ((lastN lim t.traces).filter
          (fun tr => tr.operation = f))
            <:+ lastN lim (t.traces.filter (fun tr => tr.operation = f)) := by
        apply List.suffix_of_suffix_length_le hfsuf (lastN_suffix _ _)
        rw [lastN_length]
        omega
      exact htarget.subset hmem

/-- C3 witness: filter `"opA"` on a one-record store of that operation. -/
theorem claim_C3_witness :
    (∀ tr ∈ oneTracer.get_traces (some "opA") 10, tr.operation = "opA") ∧
    oneTracer.get_traces (some "opA") 10
        = pySliceLast 10 (oneTracer.traces.filter
            (fun tr => tr.operation = "opA")) ∧
    (∀ tr ∈ lastN 10 oneTracer.traces, tr.operation = "opA" →
        tr ∈ oneTracer.get_traces (some "opA") 10) :=
  claim_C3_operation_filter oneTracer "opA" 10 (by decide)

/-! ## C4: statistics lemmas -/

open InMemoryTracer in
theorem findStats?_map_finish (acc : List (String × RawStats)) (op : String) :
    findOpStats? (acc.map (fun p => (p.1, finishStats p.2))) op
      = (findStats? acc op).map finishStats := by
  induction acc with
  | nil => simp [findOpStats?, findStats?]
  | cons p ps ih =>
      by_cases h : p.1 = op <;> simp [findOpStats?, findStats?, h, ih]

open InMemoryTracer in
theorem findStats?_map_update (acc : List (String × RawStats)) (s : String)
    (tr : Trace) (op : String) :
    findStats? (acc.map (fun p =>
        if p.1 = s then (p.1, bumpStats p.2 tr) else p)) op
      = if s = op then (findStats? acc op).map (fun v => bumpStats v tr)
        else findStats? acc op := by
  induction acc with
  | nil => split <;> simp [findStats?]
  | cons p ps ih =>
      rcases eq_or_ne s op with hso | hso
      · subst hso
        by_cases hp1 : p.1 = s <;> simp [findStats?, hp1, ih]
      · by_cases hp1 : p.1 = s
        · have hpo : p.1 ≠ op := by rw [hp1]; exact hso
          simp [findStats?, hp1, hpo, hso, ih]
        · by_cases hpo : p.1 = op <;>
            simp [findStats?, hp1, hpo, hso, Ne.symm hso, ih]

open InMemoryTracer in
theorem findStats?_append (acc₁ acc₂ : List (String × RawStats))
    (op : String) :
    findStats? (acc₁ ++ acc₂) op =
      match findStats? acc₁ op with
      | some v => some v
      | .none => findStats? acc₂ op := by
  induction acc₁ with
  | nil => simp [findStats?]
  | cons p ps ih => by_cases h : p.1 = op <;> simp [findStats?, h, ih]

open InMemoryTracer in
theorem findStats?_eq_none_of_not_any {acc : List (String × RawStats)}
    {op : String} (h : acc.any (fun p => p.1 = op) = false) :
    findStats? acc op = .none := by
  induction acc with
  | nil => simp [findStats?]
  | cons p ps ih =>
      simp only [List.any_cons, Bool.or_eq_false_iff] at h
      have hp : p.1 ≠ op := by simpa using h.1
      simp [findStats?, hp, ih h.2]

open InMemoryTracer in
theorem findStats?_isSome_of_any {acc : List (String × RawStats)}
    {op : String} (h : acc.any (fun p => p.1 = op) = true) :
    (findStats? acc op).isSome = true := by
  induction acc with
  | nil => simp at h
  | cons p ps ih =>
      by_cases hp : p.1 = op
      · simp [findStats?, hp]
      · simp only [List.any_cons, Bool.or_eq_true_iff] at h
        rcases h with h | h
        · exact absurd (by simpa using h) hp
        · simp [findStats?, hp, ih h]

open InMemoryTracer in
theorem findStats?_statsUpdate (acc : List (String × RawStats)) (tr : Trace)
    (op : String) :
    findStats? (statsUpdate acc tr) op =
      if tr.operation = op
      then some (bumpStats ((findStats? acc op).getD RawStats.zero) tr)
      else findStats? acc op := by
  unfold statsUpdate
  by_cases hany : acc.any (fun p => p.1 = tr.operation) = true
  · rw [if_pos hany, findStats?_map_update]
    rcases eq_or_ne tr.operation op with h | h
    · subst h
      rw [if_pos rfl, if_pos rfl]
      obtain ⟨v, hv⟩ :=
        Option.isSome_iff_exists.mp (findStats?_isSome_of_any hany)
      rw [hv]
      simp
    · rw [if_neg h, if_neg h]
  · rw [if_neg hany, findStats?_append]
    rcases eq_or_ne tr.operation op with h | h
    · subst h
      have hnone : findStats? acc tr.operation = .none :=
        findStats?_eq_none_of_not_any (Bool.not_eq_true _ ▸ hany)
      rw [hnone]
      simp [findStats?, hnone]
    · cases hfs : findStats? acc op <;> simp [findStats?, h, hfs, if_neg h]

open InMemoryTracer in
theorem findStats?_foldl_getD (l : List Trace)
    (acc : List (String × RawStats)) (op : String) :
    (findStats? (l.foldl statsUpdate acc) op).getD RawStats.zero
      = (l.filter (fun tr => tr.operation = op)).foldl bumpStats
          ((findStats? acc op).getD RawStats.zero) := by
  induction l generalizing acc with
  | nil => simp
  | cons tr ts ih =>
      rw [List.foldl_cons, ih]
      by_cases h : tr.operation = op <;>
        simp [findStats?_statsUpdate, h]

open InMemoryTracer in
theorem findStats?_foldl_isSome (l : List Trace)
    (acc : List (String × RawStats)) (op : String) :
    (findStats? (l.foldl statsUpdate acc) op).isSome
      = ((findStats? acc op).isSome || l.any (fun tr => tr.operation = op)) := by
  induction l generalizing acc with
  | nil => simp
  | cons tr ts ih =>
      rw [List.foldl_cons, ih]
      by_cases h : tr.operation = op <;>
        simp [findStats?_statsUpdate, h, Bool.or_assoc]

open InMemoryTracer in
theorem foldl_bumpStats (ts : List Trace) (s : RawStats) :
    ts.foldl bumpStats s =
      { count := s.count + ts.length,
        total_duration := s.total_duration + (ts.map Trace.duration_ms).sum,
        errors := s.errors
          + (ts.filter (fun tr => tr.status = "error")).length } := by
  induction ts generalizing s with
  | nil => simp
  | cons tr ts ih =>
      rw [List.foldl_cons, ih]
      by_cases h : tr.status = "error"
      · simp [bumpStats, h, RawStats.mk.injEq]
        exact ⟨by omega, by ring, by omega⟩
      · simp [bumpStats, h, RawStats.mk.injEq]
        exact ⟨by omega, by ring⟩

/-- A three-record tracer: two `opA` calls (one an error) and one `opB`
error. -/
def statsTracer : InMemoryTracer :=
  InMemoryTracer.mk
    [(sampleIn "t0" "opA" 1 "success").toTrace,
     (sampleIn "t1" "opB" 2 "error").toTrace,
     (sampleIn "t2" "opA" 2 "error").toTrace] 10000

/-- C4: for every operation with at least one retained record, `get_stats`
reports `count = n` (its number of retained records), `errors = e` (those
with status `error`), and an average duration equal to the arithmetic mean of
the `duration_ms` of all `n` records (errors included); an empty store yields
an empty result. -/
theorem claim_C4_stats (t : InMemoryTracer) (op : String)
    (hop : t.traces.any (fun tr => tr.operation = op) = true) :
    (∃ s : InMemoryTracer.OpStats,
        InMemoryTracer.findOpStats? t.get_stats op = some s ∧
        s.count = opCount op t.traces ∧
        s.errors = opErrors op t.traces ∧
        0 < opCount op t.traces ∧
        s.avg_duration = opTotal op t.traces / (opCount op t.traces : ℚ)) ∧
    (∀ u : InMemoryTracer, u.traces = [] → u.get_stats = []) := by
  constructor
  · obtain ⟨tr, htr, htrop⟩ := List.any_eq_true.mp hop
    have hne : t.traces ≠ [] := List.ne_nil_of_mem htr
    have hgs : t.get_stats
        = (t.traces.foldl InMemoryTracer.statsUpdate []).map
            (fun p => (p.1, InMemoryTracer.finishStats p.2)) := by
      rw [InMemoryTracer.get_stats, if_neg hne]
    have hsome : (InMemoryTracer.findStats?
        (t.traces.foldl InMemoryTracer.statsUpdate []) op).isSome = true := by
      rw [findStats?_foldl_isSome]
      simpa using Or.inr hop
    obtain ⟨v, hv⟩ := Option.isSome_iff_exists.mp hsome
    have hvval : v = (t.traces.filter
        (fun tr => tr.operation = op)).foldl InMemoryTracer.bumpStats
          InMemoryTracer.RawStats.zero := by
      have := findStats?_foldl_getD t.traces [] op
      rw [hv] at this
      simpa [InMemoryTracer.findStats?] using this
    have hcount : 0 < opCount op t.traces := by
      have : tr ∈ t.traces.filter (fun tr => tr.operation = op) :=
        List.mem_filter.mpr ⟨htr, by simpa using htrop⟩
      have := List.length_pos_of_mem this
      simpa [opCount, opTraces] using this
    refine ⟨InMemoryTracer.finishStats v, ?_, ?_, ?_, hcount, ?_⟩
    · rw [hgs, findStats?_map_finish, hv]
      rfl
    · rw [hvval, foldl_bumpStats]
      simp [InMemoryTracer.finishStats, InMemoryTracer.RawStats.zero,
        opCount, opTraces]
    · rw [hvval, foldl_bumpStats]
      simp [InMemoryTracer.finishStats, InMemoryTracer.RawStats.zero,
        opErrors, opTraces]
    · rw [hvval, foldl_bumpStats]
      have hc : ((t.traces.filter
          (fun tr => tr.operation = op)).length) = opCount op t.traces := by
        simp [opCount, opTraces]
      simp only [InMemoryTracer.finishStats, InMemoryTracer.RawStats.zero,
        Nat.zero_add, zero_add]
      rw [if_pos (by omega)]
      simp [opTotal, opCount, opTraces]
  · intro u hu
    rw [InMemoryTracer.get_stats, if_pos hu]

/-- C4 witness: on the three-record tracer, operation `opA` has 2 records,
1 error, and mean duration `3/2`. -/
theorem claim_C4_witness :
    (∃ s : InMemoryTracer.OpStats,
        InMemoryTracer.findOpStats? statsTracer.get_stats "opA" = some s ∧
        s.count = opCount "opA" statsTracer.traces ∧
        s.errors = opErrors "opA" statsTracer.traces ∧
        0 < opCount "opA" statsTracer.traces ∧
        s.avg_duration = opTotal "opA" statsTracer.traces
          / (opCount "opA" statsTracer.traces : ℚ)) ∧
    (∀ u : InMemoryTracer, u.traces = [] → u.get_stats = []) :=
  claim_C4_stats statsTracer "opA" (by decide)

/-! ## C5, C6, C10: the instrumentation wrapper -/

/-- The `input_data` dict the wrapper builds. -/
def wrapperInput (argsStr kwargsStr : String) : Dict :=
  [("args", PyVal.str (argsStr.take 200)),
   ("kwargs", PyVal.str (kwargsStr.take 200))]

/-- C5: when the wrapped callable raises, the wrapper re-raises the identical
exception (the very same value, hence same type and message) and appends
exactly one record with status `error` whose `error` field is the stringified
exception message (stated below capacity, where no eviction interferes). -/
theorem claim_C5_error_path {E A : Type} (t : InMemoryTracer)
    (hcap : t.traces.length < t.max_traces) (name now args kwargs : String)
    (t0 t1 : ℚ) (e : E) (eStr : E → String) (truthy : A → Bool)
    (resStr : A → String) :
    (trace_operation t name now args kwargs t0 t1 (Except.error e) eStr
        truthy resStr).1 = Except.error e ∧
    (trace_operation t name now args kwargs t0 t1 (Except.error e) eStr
        truthy resStr).2.traces =
      t.traces ++
        [{ timestamp := now, operation := name,
           input := wrapperInput args kwargs, output := [],
           duration_ms := (t1 - t0) * 1000, status := "error",
           error := some (eStr e) }] := by
  refine ⟨rfl, ?_⟩
  show (t.add_trace now name (wrapperInput args kwargs) [] ((t1 - t0) * 1000)
      "error" (some (eStr e))).traces = _
  rw [InMemoryTracer.add_trace]
  rw [if_neg]
  simp only [List.length_append, List.length_singleton]
  omega

/-- C5 witness: a wrapped call raising the (string) exception `"boom"`. -/
theorem claim_C5_witness :
    (trace_operation (InMemoryTracer.init 10000) "opA" "t0" "()" "\x7b\x7d"
        0 1 (Except.error "boom" : Except String PyVal) id PyVal.truthy
        PyVal.toStr).1 = Except.error "boom" ∧
    (trace_operation (InMemoryTracer.init 10000) "opA" "t0" "()" "\x7b\x7d"
        0 1 (Except.error "boom" : Except String PyVal) id PyVal.truthy
        PyVal.toStr).2.traces =
      (InMemoryTracer.init 10000).traces ++
        [{ timestamp := "t0", operation := "opA",
           input := wrapperInput "()" "\x7b\x7d", output := [],
           duration_ms := (1 - 0) * 1000, status := "error",
           error := some (id "boom") }] :=
  claim_C5_error_path (InMemoryTracer.init 10000) (by decide) "opA" "t0"
    "()" "\x7b\x7d" 0 1 "boom" id PyVal.truthy PyVal.toStr

/-- C6: when the wrapped callable returns normally, the wrapper passes the
exact original value through unchanged and appends exactly one record with
status `success` (stated below capacity, where no eviction interferes). -/
theorem claim_C6_success_path {E A : Type} (t : InMemoryTracer)
    (hcap : t.traces.length < t.max_traces) (name now args kwargs : String)
    (t0 t1 : ℚ) (v : A) (eStr : E → String) (truthy : A → Bool)
    (resStr : A → String) :
    (trace_operation t name now args kwargs t0 t1 (Except.ok v) eStr
        truthy resStr).1 = Except.ok v ∧
    (trace_operation t name now args kwargs t0 t1 (Except.ok v) eStr
        truthy resStr).2.traces =
      t.traces ++
        [{ timestamp := now, operation := name,
           input := wrapperInput args kwargs,
           output := [("result",
             if truthy v then PyVal.str ((resStr v).take 500) else PyVal.none)],
           duration_ms := (t1 - t0) * 1000, status := "success",
           error := .none }] := by
  refine ⟨rfl, ?_⟩
  show (t.add_trace now name (wrapperInput args kwargs) _ ((t1 - t0) * 1000)
      "success" .none).traces = _
  rw [InMemoryTracer.add_trace]
  rw [if_neg]
  simp only [List.length_append, List.length_singleton]
  omega

/-- C6 witness: a wrapped call returning the string `"ok"`. -/
theorem claim_C6_witness :
    (trace_operation (InMemoryTracer.init 10000) "opA" "t0" "()" "\x7b\x7d"
        0 1 ((Except.ok (PyVal.str "ok")) : Except String PyVal) id PyVal.truthy
        PyVal.toStr).1 = Except.ok (PyVal.str "ok") ∧
    (trace_operation (InMemoryTracer.init 10000) "opA" "t0" "()" "\x7b\x7d"
        0 1 ((Except.ok (PyVal.str "ok")) : Except String PyVal) id PyVal.truthy
        PyVal.toStr).2.traces =
      (InMemoryTracer.init 10000).traces ++
        [{ timestamp := "t0", operation := "opA",
           input := wrapperInput "()" "\x7b\x7d",
           output := [("result",
             if PyVal.truthy (PyVal.str "ok")
             then PyVal.str ((PyVal.toStr (PyVal.str "ok")).take 500)
             else PyVal.none)],
           duration_ms := (1 - 0) * 1000, status := "success",
           error := .none }] :=
  claim_C6_success_path (InMemoryTracer.init 10000) (by decide) "opA" "t0"
    "()" "\x7b\x7d" 0 1 (PyVal.str "ok") id PyVal.truthy PyVal.toStr

/-- C10: for a normal return, the `result` entry of the appended record's
output snapshot is `None` exactly when the value is falsy; only truthy
results are stringified, truncated to 500 characters (`str(result)[:500] if
result else None`). -/
theorem claim_C10_falsy_output {E A : Type} (t : InMemoryTracer)
    (hcap : t.traces.length < t.max_traces) (name now args kwargs : String)
    (t0 t1 : ℚ) (v : A) (eStr : E → String) (truthy : A → Bool)
    (resStr : A → String) :
    (truthy v = false →
      ((trace_operation t name now args kwargs t0 t1 (Except.ok v) eStr
          truthy resStr).2.traces.getLast?).map Trace.output
        = some [("result", PyVal.none)]) ∧
    (truthy v = true →
      ((trace_operation t name now args kwargs t0 t1 (Except.ok v) eStr
          truthy resStr).2.traces.getLast?).map Trace.output
        = some [("result", PyVal.str ((resStr v).take 500))]) := by
  obtain ⟨-, htr⟩ := claim_C6_success_path t hcap name now args kwargs t0 t1 v
    eStr truthy resStr
  constructor
  · intro hv
    rw [htr, List.getLast?_append]
    simp [hv]
  · intro hv
    rw [htr, List.getLast?_append]
    simp [hv]

/-- C10 witness: the falsy result `0` snapshots to `None`; the truthy result
`"ok"` snapshots to its (truncated) string form. -/
theorem claim_C10_witness :
    ((trace_operation (InMemoryTracer.init 10000) "opA" "t0" "()" "\x7b\x7d"
        0 1 ((Except.ok (PyVal.int 0)) : Except String PyVal) id PyVal.truthy
        PyVal.toStr).2.traces.getLast?).map Trace.output
      = some [("result", PyVal.none)] ∧
    ((trace_operation (InMemoryTracer.init 10000) "opA" "t0" "()" "\x7b\x7d"
        0 1 ((Except.ok (PyVal.str "ok")) : Except String PyVal) id PyVal.truthy
        PyVal.toStr).2.traces.getLast?).map Trace.output
      = some [("result", PyVal.str ((PyVal.toStr (PyVal.str "ok")).take 500))] :=
  ⟨(claim_C10_falsy_output (InMemoryTracer.init 10000) (by decide) "opA" "t0"
      "()" "\x7b\x7d" 0 1 (PyVal.int 0) id PyVal.truthy PyVal.toStr).1
      (by decide),
   (claim_C10_falsy_output (InMemoryTracer.init 10000) (by decide) "opA" "t0"
      "()" "\x7b\x7d" 0 1 (PyVal.str "ok") id PyVal.truthy PyVal.toStr).2
      (by decide)⟩

/-! ## C7, C8: export -/

theorem pySliceLast_length_self {α : Type} (l : List α) :
    pySliceLast l.length l = l := by
  rcases Nat.eq_zero_or_pos l.length with h0 | h0
  · simp [pySliceLast, h0]
  · rw [pySliceLast, if_neg (by omega), Nat.sub_self, List.drop_zero]

/-- C7: `export_json` writes the entire retained contents — all records,
unfiltered, in chronological order — so the written document, as a list, has
the same length and the same field set as `get_traces(limit=<store size>)`;
indeed it is that very query, serialized. -/
theorem claim_C7_export_full (t : InMemoryTracer) :
    t.export_json = (t.get_traces .none t.traces.length).map traceToDict ∧
    t.export_json.length = (t.get_traces .none t.traces.length).length ∧
    (∀ d ∈ t.export_json, d.map Prod.fst = traceFields) := by
  have hq : t.get_traces .none t.traces.length = t.traces := by
    show pySliceLast t.traces.length t.traces = t.traces
    exact pySliceLast_length_self t.traces
  refine ⟨?_, ?_, ?_⟩
  · rw [hq]; rfl
  · rw [hq]
    simp [InMemoryTracer.export_json]
  · intro d hd
    obtain ⟨tr, -, rfl⟩ := List.mem_map.mp hd
    rfl

/-- C7 witness: the one-record tracer. -/
theorem claim_C7_witness :
    oneTracer.export_json
        = (oneTracer.get_traces .none oneTracer.traces.length).map traceToDict ∧
    oneTracer.export_json.length
        = (oneTracer.get_traces .none oneTracer.traces.length).length ∧
    (∀ d ∈ oneTracer.export_json, d.map Prod.fst = traceFields) :=
  claim_C7_export_full oneTracer

/-- C8 counterexample: the confirmation dict returned by `export_traces_api`
has the single key `status` — there is no `path` key, so the shape is not
`{status, path}`. -/
theorem claim_C8_counterexample :
    (export_traces_api oneTracer "traces.json").2.map Prod.fst = ["status"] ∧
    "path" ∉ (export_traces_api oneTracer "traces.json").2.map Prod.fst := by
  exact ⟨rfl, by decide⟩

/-- C8 (amended): `export_traces_api` returns a confirmation dict whose only
key is `status`, and whose status message includes the path written (it is
`"Traces exported to " ++ filepath`); the exported document is the full
store. -/
theorem claim_C8_export_api (t : InMemoryTracer) (fp : String) :
    (export_traces_api t fp).2
        = [("status", PyVal.str ("Traces exported to " ++ fp))] ∧
    (export_traces_api t fp).2.map Prod.fst = ["status"] ∧
    (∃ s, (export_traces_api t fp).2
        = [("status", PyVal.str (s ++ fp))]) ∧
    (export_traces_api t fp).1 = t.export_json :=
  ⟨rfl, rfl, ⟨"Traces exported to ", rfl⟩, rfl⟩

/-! ## C9: lock discipline -/

/-- C9 counterexample: `export_json` performs its file open/write/close while
holding the lock — the `with open(...)` block is nested inside
`with self.lock:`. -/
theorem claim_C9_counterexample :
    ioUnderLock 0 exportJsonEvents = true ∧
    Event.fileWrite ∈ exportJsonEvents ∧ Event.fileWrite.isIO = true := by
  decide

/-- C9 (amended): `add_trace`, `get_traces`, `get_stats` and `clear` hold the
lock only around in-memory work (no external I/O under the lock), but
`export_json` does perform its file I/O while holding the lock. -/
theorem claim_C9_lock_discipline :
    ioUnderLock 0 addTraceEvents = false ∧
    ioUnderLock 0 getTracesEvents = false ∧
    ioUnderLock 0 getStatsEvents = false ∧
    ioUnderLock 0 clearEvents = false ∧
    ioUnderLock 0 exportJsonEvents = true := by
  decide

end Tracer
